import Mathlib

/-!
Verification of the Wireless Communication System server core.

This file shallowly embeds the server's Python source:
  - Dependencies/Communication/__init__.py  (serialization codec and mesh transport)
  - Dependencies/DataManagement/Server.py   (cue compiler, navigator, node aggregator)

Bytes are modelled as natural numbers (one per byte), pandas dataframes as
lists of record structures, NaN cells as Option.none, and pandas timestamps
as integer seconds.  The external pickle deserializer (pickle.loads) is an
uninterpreted parameter of Option type: some = deserialized value, none =
UnpicklingError.  Python exceptions raised by a function are modelled with
Except / explicit result types.

Naming: Python double-underscore private methods lose the underscore
fix-up (`__data_decode` becomes `data_decode`); the helper `__get_prefix`
is rendered `getPfx` (Lean-reserved word avoidance), and the word
"prefix" is abbreviated Pfx in names throughout for the same reason.
-/

namespace Comm

/-- Byte is one of the ASCII whitespace characters stripped by Python
bytes.strip(): space, tab, newline, carriage return, vertical tab, form feed. -/
def isSpaceByte (b : Nat) : Bool :=
  b = 32 || b = 9 || b = 10 || b = 13 || b = 11 || b = 12

/-- Python bytes.strip(): remove leading and trailing ASCII whitespace. -/
def stripWs (l : List Nat) : List Nat :=
  ((l.dropWhile isSpaceByte).reverse.dropWhile isSpaceByte).reverse

/-- Python bytes.lstrip(b-quote): remove leading double-quote bytes (34). -/
def lstripQuote (l : List Nat) : List Nat :=
  l.dropWhile (fun b => b = 34)

/-- Python data.split(two-byte delimiter quote-comma, bytes 34 44):
leftmost non-overlapping split. -/
def splitOnQuoteComma : List Nat → List (List Nat)
  | [] => [[]]
  | 34 :: 44 :: rest => [] :: splitOnQuoteComma rest
  | b :: rest =>
      match splitOnQuoteComma rest with
      | [] => [[b]]
      | s :: ss => (b :: s) :: ss

/-- Is an ASCII octal digit byte. -/
def isOctalByte (b : Nat) : Bool := 48 ≤ b && b ≤ 55

/-- Is an ASCII hex digit byte. -/
def isHexByte (b : Nat) : Bool :=
  (48 ≤ b && b ≤ 57) || (97 ≤ b && b ≤ 102) || (65 ≤ b && b ≤ 70)

/-- Value of an ASCII hex digit byte. -/
def hexVal (b : Nat) : Nat :=
  if 48 ≤ b && b ≤ 57 then b - 48
  else if 97 ≤ b && b ≤ 102 then b - 87
  else b - 55

/-- codecs.escape_decode on bytes: undo Python byte-string escapes.
The source invokes it with the (unregistered) error handler name given as
the string hex, so any malformed escape — a trailing backslash or an
invalid backslash-x escape — raises; that is modelled as Except.error. -/
def escape_decode : List Nat → Except String (List Nat)
  | [] => .ok []
  | 92 :: rest =>
      match rest with
      | [] => .error "Trailing backslash in string"
      | c :: rs =>
        if c = 10 then escape_decode rs
        else if c = 92 then (fun t => 92 :: t) <$> escape_decode rs
        else if c = 39 then (fun t => 39 :: t) <$> escape_decode rs
        else if c = 34 then (fun t => 34 :: t) <$> escape_decode rs
        else if c = 98 then (fun t => 8 :: t) <$> escape_decode rs
        else if c = 102 then (fun t => 12 :: t) <$> escape_decode rs
        else if c = 116 then (fun t => 9 :: t) <$> escape_decode rs
        else if c = 110 then (fun t => 10 :: t) <$> escape_decode rs
        else if c = 114 then (fun t => 13 :: t) <$> escape_decode rs
        else if c = 118 then (fun t => 11 :: t) <$> escape_decode rs
        else if c = 97 then (fun t => 7 :: t) <$> escape_decode rs
        else if isOctalByte c then
          match rs with
          | d2 :: d3 :: rs3 =>
            if isOctalByte d2 && isOctalByte d3 then
              (fun t => (((c - 48) * 64 + (d2 - 48) * 8 + (d3 - 48)) % 256) :: t) <$>
                escape_decode rs3
            else if isOctalByte d2 then
              (fun t => (((c - 48) * 8 + (d2 - 48)) % 256) :: t) <$> escape_decode (d3 :: rs3)
            else (fun t => (c - 48) :: t) <$> escape_decode (d2 :: d3 :: rs3)
          | [d2] =>
            if isOctalByte d2 then
              (fun t => (((c - 48) * 8 + (d2 - 48)) % 256) :: t) <$> escape_decode []
            else (fun t => (c - 48) :: t) <$> escape_decode [d2]
          | [] => .ok [c - 48]
        else if c = 120 then
          match rs with
          | h1 :: h2 :: rs2 =>
            if isHexByte h1 && isHexByte h2 then
              (fun t => (16 * hexVal h1 + hexVal h2) :: t) <$> escape_decode rs2
            else .error "invalid x escape"
          | _ => .error "invalid x escape"
        else (fun t => 92 :: c :: t) <$> escape_decode rs
  | b :: rest => (fun t => b :: t) <$> escape_decode rest

/-- The record extraction of Communication.__data_decode: unescape twice,
split on the quote-comma delimiter, keep parts containing a period byte
(46), strip whitespace and leading quotes from each. -/
def decodeSegs (blob : List Nat) : Except String (List (List Nat)) := do
  let d1 ← escape_decode blob
  let d2 ← escape_decode d1
  let parts := (splitOnQuoteComma d2).filter (fun e => e.contains 46)
  .ok (parts.map (fun e => lstripQuote (stripWs e)))

/-- Communication.__data_decode: the deserializer loads is applied to each
record inside a single try block, so one failing record aborts the whole
comprehension and the caught UnpicklingError turns the result into the
empty list. -/
def data_decode {α : Type} (loads : List Nat → Option α) (blob : List Nat) :
    Except String (List α) := do
  let segs ← decodeSegs blob
  match segs.mapM loads with
  | some objs => .ok objs
  | none => .ok []

/-- The three shapes receive_data can hand back: Python None, a single
decoded object, or the full list. -/
inductive ReceiveResult (α : Type) where
  | noData : ReceiveResult α
  | one (a : α) : ReceiveResult α
  | many (l : List α) : ReceiveResult α
  deriving DecidableEq, Repr

/-- Communication.receive_data: decode the daemon response, then return
None on an empty list, the lone element when exactly one record decoded and
singular is set, and the whole list otherwise. -/
def receive_data {α : Type} (loads : List Nat → Option α) (blob : List Nat)
    (singular : Bool) : Except String (ReceiveResult α) := do
  let data ← data_decode loads blob
  match data, singular with
  | [], _ => .ok ReceiveResult.noData
  | [a], true => .ok (ReceiveResult.one a)
  | d, _ => .ok (ReceiveResult.many d)

end Comm

namespace DataMgmt

/-- The three data cells of a raw cue row: When, Action, Cue State.
none models a NaN cell. -/
abbrev Vals := Option String × Option String × Option String

/-- All three cells NaN. -/
def blankVals : Vals := (none, none, none)

/-- A row of the raw all-cues table: the Cue Number index cell plus the
When / Action / Cue State data cells. -/
structure RawRow where
  cueNumber : Option String
  vals : Vals
  deriving DecidableEq, Repr

/-- A raw user table: its column names (index column included, as seen by
reset_index) and its rows. -/
structure RawTable where
  columns : List String
  rows : List RawRow
  deriving DecidableEq, Repr

/-- A compiled cue row: the (Cue Group Number, Cue Number) index plus the
Cue Prefix, When, Action and Cue State columns. -/
structure CueRow where
  group : Nat
  cueNumber : Option String
  cuePfx : String
  whenV : String
  action : String
  cueState : String
  deriving DecidableEq, Repr

/-- A row of the current-cues frame: indexed by Cue Prefix, with the Cue
Number, When, Action and Cue State columns. -/
structure CurrentRow where
  cuePfx : String
  cueNumber : Option String
  whenV : String
  action : String
  cueState : String
  deriving DecidableEq, Repr

/-- A row of the node-status frame, indexed by Cue Number.  The node
fields and the Last Updated display are none until populated. -/
structure NodeRow where
  cueNumber : Option String
  whenV : Option String
  action : Option String
  cueState : Option String
  nodeNumber : Option String
  nodeState : Option String
  timestamp : Option Int
  lastUpdated : Option String
  deriving DecidableEq, Repr

/-- A node report series received over the mesh (format_nodes input). -/
structure NodeReport where
  cueNumber : Option String
  whenV : Option String
  action : Option String
  cueState : Option String
  nodeNumber : Option String
  nodeState : Option String
  timestamp : Option Int
  deriving DecidableEq, Repr

/-- The ServerDataManagement state: the attributes frame is represented by
its Cue Prefix column, the states frame by its Cue State index, plus the
compiled all-cues frame, the derived current-cues and nodes frames, the
persisted current group number and the cached maximum group (none models
the NaN produced by max() over an empty frame). -/
structure ServerState where
  attrPfxs : List String
  stateKeys : List String
  allCues : List CueRow
  currentCues : List CurrentRow
  nodes : List NodeRow
  cueNum : Int
  maxCueGroup : Option Nat
  deriving DecidableEq, Repr

/-- Strip every digit and period from a cue number
(ServerDataManagement.__get_prefix, first line). -/
def potentialPfx (cueNum : String) : String :=
  String.mk (cueNum.data.filter (fun ch => !ch.isDigit && ch != '.'))

/-- ServerDataManagement.__get_prefix: resolve a cue number against the
attributes' Cue Prefix column.  Exactly one match returns it; the sentinel
cue number returns NaN; otherwise a FormatCheckError is raised. -/
def getPfx (attrPfxs : List String) (cueNum : String) : Except String (Option String) :=
  match attrPfxs.filter (fun p => p = potentialPfx cueNum) with
  | [p] => .ok (some p)
  | _ =>
    if cueNum = "last_row_storage" then .ok none
    else .error "cue prefix"

/-- Lexicographic comparison of character lists by code point, the order
Python string comparison uses. -/
def charListLe : List Char → List Char → Bool
  | [], _ => true
  | _ :: _, [] => false
  | a :: as, b :: bs =>
    if a.toNat < b.toNat then true
    else if b.toNat < a.toNat then false
    else charListLe as bs

/-- Lexicographic string comparison by code point. -/
def strLe (a b : String) : Bool := charListLe a.data b.data

/-- Insertion sort with the lexicographic order, modelling Python
list.sort() over column-name strings. -/
def insertStr (a : String) : List String → List String
  | [] => [a]
  | b :: l => if strLe a b then a :: b :: l else b :: insertStr a l

/-- Sort a list of column names (Python list.sort()). -/
def sortStrs : List String → List String
  | [] => []
  | a :: l => insertStr a (sortStrs l)

/-- ServerDataManagement.__check_columns_names: sort both column lists and
compare; mismatch raises FormatCheckError for the column titles. -/
def check_columns_names (columns expected : List String) : Except String Unit :=
  if sortStrs columns = sortStrs expected then .ok ()
  else .error "column titles"

/-- The dataframe.loc assignment of the sentinel row: if a row with the
sentinel cue number already exists its cells are overwritten with NaN,
otherwise a fresh sentinel row is appended. -/
def addLrs (rows : List RawRow) : List RawRow :=
  if rows.any (fun r => r.cueNumber = some "last_row_storage") then
    rows.map (fun r =>
      if r.cueNumber = some "last_row_storage" then ⟨r.cueNumber, blankVals⟩ else r)
  else rows ++ [⟨some "last_row_storage", blankVals⟩]

/-- dataframe.shift(): each row keeps its index cell but takes the data
cells of the row above it; the first row gets NaN cells. -/
def shiftDown : Vals → List RawRow → List RawRow
  | _, [] => []
  | p, r :: rs => ⟨r.cueNumber, p⟩ :: shiftDown r.vals rs

/-- All three data cells NaN. -/
def isBlankVals (v : Vals) : Bool :=
  v.1.isNone && v.2.1.isNone && v.2.2.isNone

/-- Row survives dropna(how=all) after reset_index: some cell, the Cue
Number included, is not NaN. -/
def keepAll (r : RawRow) : Bool :=
  r.cueNumber.isSome || !(isBlankVals r.vals)

/-- The group-number column built by the formatting loop: a NaN cue number
first increments the group counter, and every row records the counter. -/
def groupCol : Nat → List (Option String) → List Nat
  | _, [] => []
  | g, none :: is => (g + 1) :: groupCol (g + 1) is
  | g, some _ :: is => g :: groupCol g is

/-- The prefix computed by the loop body for one index cell: NaN cue
numbers contribute NaN, others go through __get_prefix. -/
def qfun (attrPfxs : List String) : Option String → Except String (Option String)
  | none => .ok none
  | some c => getPfx attrPfxs c

/-- The prefix column accumulated by the formatting loop, in row order,
raising at the first bad prefix exactly as the loop does. -/
def qList (attrPfxs : List String) : List (Option String) → Except String (List (Option String))
  | [] => .ok []
  | i :: is => do
      let q ← qfun attrPfxs i
      let qs ← qList attrPfxs is
      .ok (q :: qs)

/-- An intermediate row after the group and prefix columns are attached. -/
structure LoopRow where
  group : Nat
  cueNumber : Option String
  pfx : Option String
  vals : Vals
  deriving DecidableEq, Repr

/-- Zip the kept rows with the group column and the (shifted) prefix
column. -/
def mkLoopRows : List RawRow → List Nat → List (Option String) → List LoopRow
  | k :: ks, g :: gs, p :: ps => ⟨g, k.cueNumber, p, k.vals⟩ :: mkLoopRows ks gs ps
  | _, _, _ => []

/-- dataframe.shift(-1): each row keeps its (group, cue number) index but
takes the data cells of the row below; the last row gets NaN cells. -/
def shiftUp : List LoopRow → List LoopRow
  | [] => []
  | [r] => [⟨r.group, r.cueNumber, none, blankVals⟩]
  | r :: r2 :: rs => ⟨r.group, r.cueNumber, r2.pfx, r2.vals⟩ :: shiftUp (r2 :: rs)

/-- dataframe.dropna() with how=any plus the projection to a compiled cue
row: rows with any NaN data cell vanish. -/
def finalize (r : LoopRow) : Option CueRow :=
  match r.pfx, r.vals with
  | some p, (some w, some a, some s) => some ⟨r.group, r.cueNumber, p, w, a, s⟩
  | _, _ => none

/-- ServerDataManagement.format_all_cues, unformatted path, up to (and
including) the cue-state check: returns the compiled cue rows or the
FormatCheckError tag that is re-raised as a fatal FormatError. -/
def compileAllCues (attrPfxs stateKeys : List String) (t : RawTable) :
    Except String (List CueRow) := do
  let _ ← check_columns_names t.columns ["Cue Number", "When", "Action", "Cue State"]
  let rows1 := addLrs t.rows
  let ks := (shiftDown blankVals rows1).filter keepAll
  let qs ← qList attrPfxs (ks.map (fun r => r.cueNumber))
  let out := (shiftUp (mkLoopRows ks (groupCol 0 (ks.map (fun r => r.cueNumber)))
      (none :: qs.dropLast))).filterMap finalize
  let _ ← check_columns_names
      ["Cue Group Number", "Cue Number", "Cue Prefix", "When", "Action", "Cue State"]
      ["Cue Group Number", "Cue Number", "Cue Prefix", "When", "Action", "Cue State"]
  if out.any (fun r => !(stateKeys.contains r.cueState)) then
    .error "cue states"
  else
    .ok out

/-- ServerDataManagement.update_max_cue_group: the maximum Cue Group Number
of the all-cues frame; none models the NaN that max() yields on an empty
frame. -/
def maxGroupOf (cues : List CueRow) : Option Nat :=
  (cues.map (fun r => r.group)).max?

/-- ServerDataManagement.update_max_cue_group as a state update. -/
def update_max_cue_group (s : ServerState) : ServerState :=
  { s with maxCueGroup := maxGroupOf s.allCues }

/-- The empty-shell nodes frame built from a current-cues frame: one row
per cue, keyed by Cue Number, node fields NaN (no Last Updated column
yet). -/
def shellOf (cur : List CurrentRow) : List NodeRow :=
  cur.map (fun c =>
    NodeRow.mk c.cueNumber (some c.whenV) (some c.action) (some c.cueState) none none none none)

/-- ServerDataManagement.reset_nodes: rebuild the nodes frame from the
current-cues frame as the empty shell. -/
def reset_nodes (s : ServerState) : ServerState :=
  { s with nodes := shellOf s.currentCues }

/-- The dataframe.loc selection of the current group's rows, reindexed by
Cue Prefix (the body of format_current_cues). -/
def snapshotOf (s : ServerState) : List CurrentRow :=
  (s.allCues.filter (fun r => (r.group : Int) = s.cueNum)).map
    (fun r => CurrentRow.mk r.cuePfx r.cueNumber r.whenV r.action r.cueState)

/-- ServerDataManagement.format_current_cues: select the all-cues rows of
the current group (dataframe.loc, which raises KeyError when the group is
absent — modelled as none), reindex them by Cue Prefix, store them as the
current-cues frame and reset the nodes frame to match. -/
def format_current_cues (s : ServerState) : Option ServerState :=
  if (s.allCues.filter (fun r => (r.group : Int) = s.cueNum)).isEmpty then none
  else some (reset_nodes { s with currentCues := snapshotOf s })

/-- Python comparison of the requested group number with the cached
maximum: comparing with NaN (none) is always false. -/
def leMaxGroup (n : Int) (m : Option Nat) : Bool :=
  match m with
  | some m => n ≤ (m : Int)
  | none => false

/-- Outcome of warp_cue: the returned Boolean with the new state, or the
KeyError raised inside format_current_cues (the group number was already
persisted when it is raised). -/
inductive WarpResult where
  | ok (success : Bool) (s : ServerState)
  | keyError (s : ServerState)
  deriving DecidableEq, Repr

/-- ServerDataManagement.warp_cue: inside 0..maxCueGroup persist the new
group number and recompute the current cues (True); otherwise leave
everything unchanged (False). -/
def warp_cue (n : Int) (s : ServerState) : WarpResult :=
  if 0 ≤ n ∧ leMaxGroup n s.maxCueGroup then
    match format_current_cues { s with cueNum := n } with
    | some s2 => .ok true s2
    | none => .keyError { s with cueNum := n }
  else .ok false s

/-- ServerDataManagement.next_cue: wrap from the last group to 0, else
increment (an int never equals the NaN of an empty frame, so the
comparison falls through to the increment); then recompute the current
cues, whose KeyError is modelled as none. -/
def next_cue (s : ServerState) : Option ServerState :=
  let c2 : Int :=
    match s.maxCueGroup with
    | some m => if s.cueNum = (m : Int) then 0 else s.cueNum + 1
    | none => s.cueNum + 1
  format_current_cues { s with cueNum := c2 }

/-- ServerDataManagement.previous_cue: wrap from group 0 to the last
group, else decrement; then recompute the current cues.  At group 0 with a
NaN maximum the update stores NaN and int() then raises — modelled as
none. -/
def previous_cue (s : ServerState) : Option ServerState :=
  if s.cueNum = 0 then
    match s.maxCueGroup with
    | some m => format_current_cues { s with cueNum := (m : Int) }
    | none => none
  else format_current_cues { s with cueNum := s.cueNum - 1 }

/-- Outcome of format_all_cues: a fatal FormatError (the state as it was
left), a success, or the KeyError escaping from the warp back to group 0
on the success path. -/
inductive FormatOutcome where
  | fatal (err : String) (s : ServerState)
  | success (s : ServerState)
  | keyError (s : ServerState)
  deriving DecidableEq, Repr

/-- ServerDataManagement.format_all_cues (unformatted path), with its
persistence behavior: a FormatCheckError is re-raised as a fatal
FormatError without touching any stored frame (only the unreachable
FormatCheckWarning branch would store the table before re-raising); on
success the compiled frame is stored, the maximum group recomputed, and
the current group warped back to 0. -/
def format_all_cues (t : RawTable) (s : ServerState) : FormatOutcome :=
  match compileAllCues s.attrPfxs s.stateKeys t with
  | .error e => .fatal e s
  | .ok out =>
      match warp_cue 0 (update_max_cue_group { s with allCues := out }) with
      | .ok _ s3 => .success s3
      | .keyError s3 => .keyError s3

/-- One received series applied to the nodes frame
(the body of the format_nodes loop): only a series whose Cue Number is an
index key overwrites that row's cells — column alignment leaves the row's
Last Updated cell NaN since the series has no such entry. -/
def applyReport (rows : List NodeRow) (r : NodeReport) : List NodeRow :=
  if rows.any (fun row => row.cueNumber = r.cueNumber) then
    rows.map (fun row =>
      if row.cueNumber = r.cueNumber then
        ⟨row.cueNumber, r.whenV, r.action, r.cueState, r.nodeNumber, r.nodeState,
          r.timestamp, none⟩
      else row)
  else rows

/-- Python round() of seconds divided by 60: nearest minute, ties to
even. -/
def roundMin (secs : Int) : Int :=
  let q := Int.fdiv secs 60
  let r := Int.fmod secs 60
  if r < 30 then q
  else if r > 30 then q + 1
  else if q % 2 = 0 then q else q + 1

/-- ServerDataManagement.format_timestamp: a real timestamp becomes the
rounded elapsed minutes, capped textually at more than 99; anything else
(a NaN cell) stays NaN. -/
def format_timestamp (now : Int) (t : Option Int) : Option String :=
  match t with
  | some ts =>
      let totalMin := roundMin (now - ts)
      if totalMin ≤ 99 then some (toString totalMin ++ " min")
      else some ">99 min"
  | none => none

/-- ServerDataManagement.update_last_updated: recompute the Last Updated
column of every nodes row from its Timestamp. -/
def update_last_updated (now : Int) (s : ServerState) : ServerState :=
  { s with nodes := s.nodes.map (fun row =>
      { row with lastUpdated := format_timestamp now row.timestamp }) }

/-- ServerDataManagement.format_nodes: a None series list changes nothing;
otherwise each series is merged into the nodes frame and the Last Updated
column is recomputed. -/
def format_nodes (now : Int) (reports : Option (List NodeReport)) (s : ServerState) :
    ServerState :=
  match reports with
  | none => s
  | some rs => update_last_updated now { s with nodes := rs.foldl applyReport s.nodes }

/-- A fully blank row: NaN cue number and NaN data cells. -/
def isBlankRow (r : RawRow) : Bool :=
  r.cueNumber.isNone && isBlankVals r.vals

/-- All three data cells present. -/
def isFullVals (v : Vals) : Bool :=
  v.1.isSome && v.2.1.isSome && v.2.2.isSome

/-- A raw row is valid when it is fully blank, or is a completely filled
cue row that is not the sentinel, whose stripped prefix matches exactly
one attribute prefix and whose cue state is a known state key. -/
def validRow (attrs stateKeys : List String) (r : RawRow) : Bool :=
  isBlankRow r ||
  (match r.cueNumber, r.vals with
   | some c, (some _, some _, some st) =>
     !(c == "last_row_storage") &&
     ((attrs.filter (fun p => p = potentialPfx c)).length == 1) &&
     stateKeys.contains st
   | _, _ => false)

/-- A valid raw cue table: the exact column set and every row valid. -/
def ValidTable (attrs stateKeys : List String) (t : RawTable) : Prop :=
  sortStrs t.columns = sortStrs ["Cue Number", "When", "Action", "Cue State"] ∧
  ∀ r ∈ t.rows, validRow attrs stateKeys r = true

/-- The compiled row the direct forward pass produces for a filled row:
its own cue number, the attribute prefix its stripped cue number resolves
to, and its own data cells. -/
def mkOut (attrs : List String) (g : Nat) (r : RawRow) : CueRow :=
  ⟨g, r.cueNumber,
   (attrs.filter (fun p => p = potentialPfx (r.cueNumber.getD ""))).headD "",
   r.vals.1.getD "", r.vals.2.1.getD "", r.vals.2.2.getD ""⟩

mutual
/-- Modelled from the spec (§4.3, design note §9): the direct one-pass
compiler — rows are partitioned into runs separated by fully blank rows,
successive runs get group numbers g, g+1, …, and each filled row yields
its resolved prefix and data.  specRun is the state in which the previous
row was a cue row, so a blank row here starts a new group. -/
def specRun (attrs : List String) (g : Nat) : List RawRow → List CueRow
  | [] => []
  | r :: rs =>
    if isBlankRow r then specSkip attrs (g + 1) rs
    else mkOut attrs g r :: specRun attrs g rs

/-- Modelled from the spec (§4.3): the state in which the previous row was
blank (or the script just started), so further blank rows are absorbed
into the same boundary without starting another group. -/
def specSkip (attrs : List String) (g : Nat) : List RawRow → List CueRow
  | [] => []
  | r :: rs =>
    if isBlankRow r then specSkip attrs g rs
    else mkOut attrs g r :: specRun attrs g rs
end

/-- Modelled from the spec (§4.3): compile a raw cue table by a single
forward scan, leading blank rows starting no group. -/
def specCompile (attrs : List String) (rows : List RawRow) : List CueRow :=
  specSkip attrs 0 rows

/-! Proof helpers: fused characterizations of the pipeline stages. -/

/-- Fusion of the sentinel append, the downward shift and the
dropna(how=all) filter: each row is paired with the data cells of its
predecessor, rows that are blank in both respects vanish, and the sentinel
closes the list carrying the last row's cells. -/
def kept : Vals → List RawRow → List RawRow
  | p, [] => [⟨some "last_row_storage", p⟩]
  | p, r :: rs =>
    if keepAll ⟨r.cueNumber, p⟩ then ⟨r.cueNumber, p⟩ :: kept r.vals rs
    else kept r.vals rs

/-- Fusion of the upward shift and the final dropna: each row is emitted
with its successor's prefix and data cells when those are complete. -/
def pairedOut : List LoopRow → List CueRow
  | [] => []
  | [_] => []
  | r :: r2 :: rs =>
    (match finalize ⟨r.group, r.cueNumber, r2.pfx, r2.vals⟩ with
     | some c => [c]
     | none => []) ++ pairedOut (r2 :: rs)

/-- Single-pass fusion of the group/prefix loop with the shifted output
pairing, used to characterize the pipeline on the kept rows. -/
def fused (attrs : List String) : Nat → List RawRow → Except String (List CueRow)
  | _, [] => .ok []
  | _, [k] => do
      let _ ← qfun attrs k.cueNumber
      .ok []
  | g, k :: k2 :: rest => do
      let pk ← qfun attrs k.cueNumber
      let tl ← fused attrs (if k.cueNumber.isNone then g + 1 else g) (k2 :: rest)
      .ok ((match finalize ⟨if k.cueNumber.isNone then g + 1 else g,
              k.cueNumber, pk, k2.vals⟩ with
            | some c => [c]
            | none => []) ++ tl)

/-- Every element equals the seed or its successor, chained. -/
def chainFromB : Nat → List Nat → Bool
  | _, [] => true
  | g, x :: xs => (x == g || x == g + 1) && chainFromB x xs

/-- The head equals the seed exactly and the rest chains with steps of 0
or 1: such a list enumerates a contiguous range with repetitions. -/
def headedB : Nat → List Nat → Bool
  | _, [] => true
  | g, x :: xs => (x == g) && chainFromB x xs

/-- The documented data-model invariant (spec §3): the cached maximum is
real and every group number up to it is present in the all-cues frame, so
dataframe.loc never raises during navigation. -/
def WF (s : ServerState) (m : Nat) : Prop :=
  s.maxCueGroup = some m ∧ ∀ g : Nat, g ≤ m → ∃ r ∈ s.allCues, r.group = g

/-- Iterate next_cue, propagating a KeyError. -/
def iterNext : Nat → ServerState → Option ServerState
  | 0, s => some s
  | k + 1, s => (next_cue s).bind (iterNext k)

/-- Iterate previous_cue, propagating a KeyError. -/
def iterPrev : Nat → ServerState → Option ServerState
  | 0, s => some s
  | k + 1, s => (previous_cue s).bind (iterPrev k)

end DataMgmt

open Comm DataMgmt

/-! Concrete data used by the scenario theorems, the counterexamples and
the witnesses. -/

/-- Blob holding two period-bearing records separated by the quote-comma
delimiter: bytes of period 1, the delimiter, bytes of period 2. -/
def exBlob2 : List Nat := [46, 49, 34, 44, 46, 50]

/-- A deserializer that understands only the first of those records. -/
def exLoads2 : List Nat → Option Nat :=
  fun bs => if bs = [46, 49] then some 5 else none

/-- Blob holding one record (bytes of p period). -/
def exBlob1 : List Nat := [112, 46]

/-- Blob with no content marker at all (a lone p byte): zero records. -/
def exBlob0 : List Nat := [112]

/-- A deserializer for the witnesses: both two-byte records decode. -/
def exLoadsOk : List Nat → Option Nat :=
  fun bs => if bs = [112, 46] then some 7 else if bs = [46, 49] then some 8
    else if bs = [46, 50] then some 9 else none

/-- Data cells of the first example cue row. -/
def exValsA : Vals := (some "w1", some "a1", some "Go")

/-- Data cells of the second example cue row. -/
def exValsB : Vals := (some "w2", some "a2", some "Go")

/-- The C2 scenario table: one group of two valid cue rows followed by a
single trailing blank row. -/
def exTableC2 : RawTable :=
  ⟨["Cue Number", "When", "Action", "Cue State"],
   [⟨some "A1", exValsA⟩, ⟨some "A2", exValsB⟩, ⟨none, blankVals⟩]⟩

/-- The same two cue rows with a leading run of two blank rows. -/
def exTableLead : RawTable :=
  ⟨["Cue Number", "When", "Action", "Cue State"],
   [⟨none, blankVals⟩, ⟨none, blankVals⟩, ⟨some "A1", exValsA⟩, ⟨some "A2", exValsB⟩]⟩

/-- A valid two-group table used by the C1 witness: leading blanks, a
two-row run, an interior blank run of length two, a final one-row run. -/
def exTableTwoGroups : RawTable :=
  ⟨["Cue Number", "When", "Action", "Cue State"],
   [⟨none, blankVals⟩, ⟨some "A1", exValsA⟩, ⟨some "B2", exValsB⟩,
    ⟨none, blankVals⟩, ⟨none, blankVals⟩, ⟨some "A3", exValsA⟩]⟩

/-- A raw table whose column set is wrong (Cue State missing). -/
def exTableBadCols : RawTable :=
  ⟨["Cue Number", "When", "Action"], [⟨some "A1", exValsA⟩]⟩

/-- A starting server state with attribute prefixes A and B, state key Go,
and an empty stored all-cues frame. -/
def exState0 : ServerState :=
  ⟨["A", "B"], ["Go"], [], [], [], 0, none⟩

/-- The two compiled rows of the C2 scenario. -/
def exCuesC2 : List CueRow :=
  [⟨0, some "A1", "A", "w1", "a1", "Go"⟩, ⟨0, some "A2", "A", "w2", "a2", "Go"⟩]

/-- The current-cues frame derived from the C2 scenario at group 0. -/
def exCurrentC2 : List CurrentRow :=
  [⟨"A", some "A1", "w1", "a1", "Go"⟩, ⟨"A", some "A2", "w2", "a2", "Go"⟩]

/-- The empty-shell nodes frame derived from the C2 scenario at group 0. -/
def exNodesC2 : List NodeRow :=
  [⟨some "A1", some "w1", some "a1", some "Go", none, none, none, none⟩,
   ⟨some "A2", some "w2", some "a2", some "Go", none, none, none, none⟩]

/-- The server state after successfully compiling the C2 scenario. -/
def exStateC2 : ServerState :=
  ⟨["A", "B"], ["Go"], exCuesC2, exCurrentC2, exNodesC2, 0, some 0⟩

/-- A two-group compiled state (groups 0 and 1) used by the navigation
witnesses, currently at group 1 with one populated node report row. -/
def exStateNav : ServerState :=
  ⟨["A", "B"], ["Go"],
   [⟨0, some "A1", "A", "w1", "a1", "Go"⟩, ⟨1, some "B2", "B", "w2", "a2", "Go"⟩],
   [⟨"B", some "B2", "w2", "a2", "Go"⟩],
   [⟨some "B2", some "w2", some "a2", some "Go", some "3", some "armed", some 100, none⟩],
   1, some 1⟩

/-- A stale node report: cue number B9 is not a key of exStateNav's nodes
frame. -/
def exStaleReport : NodeReport :=
  ⟨some "B9", some "w9", some "a9", some "Go", some "4", some "fired", some 200⟩

/-! ## C3 -/

/-- C3, counterexample.  The claim says each remaining record is
deserialized independently, a failing record is dropped without aborting
the batch, and decode never raises.  On a blob carrying two records where
only the first deserializes, __data_decode returns the empty list — the
whole batch is aborted, the good record dropped with it — instead of the
one-element batch the claim requires; and on a blob ending in a lone
backslash the unescaping step itself raises instead of returning empty. -/
theorem C3_counterexample :
    decodeSegs exBlob2 = Except.ok [[46, 49], [46, 50]] ∧
    exLoads2 [46, 49] = some 5 ∧
    exLoads2 [46, 50] = none ∧
    data_decode exLoads2 exBlob2 = Except.ok ([] : List Nat) ∧
    (∀ l : List Nat, data_decode exLoads2 exBlob2 = Except.ok l → l ≠ [5]) ∧
    data_decode exLoads2 [92] = Except.error "Trailing backslash in string" := by
  refine ⟨rfl, rfl, rfl, rfl, fun l h => ?_, rfl⟩
  have e : data_decode exLoads2 exBlob2 = Except.ok ([] : List Nat) := rfl
  rw [e] at h
  rw [(Except.ok.inj h).symm]
  decide

/-- C3, amended.  decode deserializes the extracted records as one batch:
when every record deserializes the whole batch is returned, and when any
record fails the entire batch — successfully deserialized records
included — is discarded and the empty sequence returned without raising;
decode raises only when the escape-unescaping step itself fails. -/
theorem C3_batch_semantics {α : Type} (loads : List Nat → Option α)
    (blob : List Nat) (segs : List (List Nat))
    (h : decodeSegs blob = Except.ok segs) :
    (∀ objs, segs.mapM loads = some objs → data_decode loads blob = Except.ok objs) ∧
    (segs.mapM loads = none → data_decode loads blob = Except.ok []) := by
  constructor
  · intro objs h2
    unfold data_decode
    rw [h]
    show (match segs.mapM loads with
          | some objs => Except.ok objs
          | none => Except.ok []) = Except.ok objs
    rw [h2]
  · intro h2
    unfold data_decode
    rw [h]
    show (match segs.mapM loads with
          | some objs => Except.ok objs
          | none => Except.ok []) = Except.ok []
    rw [h2]

/-- C3, witness: the batch-abort law applied to the concrete two-record
blob whose second record fails to deserialize. -/
theorem C3_witness : data_decode exLoads2 exBlob2 = Except.ok ([] : List Nat) :=
  (C3_batch_semantics exLoads2 exBlob2 [[46, 49], [46, 50]] rfl).2 rfl

/-! ## C4 -/

/-- C4.  For every daemon response whose decode yields the record list l,
receive_data returns None when l is empty; the single decoded value
itself — not a one-element list — when l has exactly one record and
singular is set; the one-element list when singular is not set; and the
full list whenever two or more records decoded, regardless of singular. -/
theorem C4_receive_shape {α : Type} (loads : List Nat → Option α)
    (blob : List Nat) (l : List α) (singular : Bool)
    (h : data_decode loads blob = Except.ok l) :
    (l = [] → receive_data loads blob singular = Except.ok ReceiveResult.noData) ∧
    (∀ a, l = [a] → receive_data loads blob true = Except.ok (ReceiveResult.one a)) ∧
    (∀ a, l = [a] → receive_data loads blob false = Except.ok (ReceiveResult.many [a])) ∧
    (2 ≤ l.length → receive_data loads blob singular = Except.ok (ReceiveResult.many l)) := by
  refine ⟨fun h0 => ?_, fun a h1 => ?_, fun a h1 => ?_, fun h2 => ?_⟩
  · subst h0; unfold receive_data; rw [h]; rfl
  · subst h1; unfold receive_data; rw [h]; rfl
  · subst h1; unfold receive_data; rw [h]; rfl
  · match l, h2 with
    | a :: b :: t, _ =>
      cases singular <;> (unfold receive_data; rw [h]; rfl)

/-- C4, witness: the three shapes on concrete blobs — zero records give
None, one record with singular gives the bare value, one record without
singular gives the one-element list, and two records give the full list
even with singular set. -/
theorem C4_witness :
    receive_data exLoadsOk exBlob0 true = Except.ok ReceiveResult.noData ∧
    receive_data exLoadsOk exBlob1 true = Except.ok (ReceiveResult.one 7) ∧
    receive_data exLoadsOk exBlob1 false = Except.ok (ReceiveResult.many [7]) ∧
    receive_data exLoadsOk exBlob2 true = Except.ok (ReceiveResult.many [8, 9]) :=
  ⟨(C4_receive_shape exLoadsOk exBlob0 [] true rfl).1 rfl,
   (C4_receive_shape exLoadsOk exBlob1 [7] true rfl).2.1 7 rfl,
   (C4_receive_shape exLoadsOk exBlob1 [7] false rfl).2.2.1 7 rfl,
   (C4_receive_shape exLoadsOk exBlob2 [8, 9] true rfl).2.2.2 (by decide)⟩

/-! ## C5 -/

/-- C5, counterexample.  The claim says that when format_all_cues ends in
a fatal error the raw input table is still persisted verbatim.  Feeding a
one-row table with a wrong column set into a state whose stored all-cues
frame is empty raises the fatal FormatError and leaves the state — the
stored (empty) all-cues frame included — exactly as it was, so the
operator's one-row table was not persisted anywhere. -/
theorem C5_counterexample :
    format_all_cues exTableBadCols exState0 = FormatOutcome.fatal "column titles" exState0 ∧
    exState0.allCues = [] ∧
    exTableBadCols.rows ≠ [] := by
  refine ⟨by decide, rfl, by decide⟩

/-- C5, amended.  Whenever format_all_cues ends in a fatal FormatError,
nothing is persisted at all: neither the raw table nor any derived frame
is stored and the whole state is left unchanged (the change is rejected
outright).  The table would be stored despite the error only by the
FormatCheckWarning branch, which no check of this compiler ever raises,
and the derived sequence, maximum group and snapshot are recomputed only
on success. -/
theorem C5_fatal_state_unchanged (t : RawTable) (s : ServerState) (e : String)
    (s' : ServerState) (h : format_all_cues t s = FormatOutcome.fatal e s') :
    s' = s := by
  unfold format_all_cues at h
  split at h
  · exact (FormatOutcome.fatal.inj h).2.symm
  · split at h
    · exact FormatOutcome.noConfusion h
    · exact FormatOutcome.noConfusion h

/-- C5, witness: the amended law applied to the concrete wrong-column
table, whose fatal outcome indeed returns the starting state. -/
theorem C5_witness : exState0 = exState0 :=
  C5_fatal_state_unchanged exTableBadCols exState0 "column titles" exState0 (by decide)

/-! ## C8 -/

/-- C8.  A report whose cue number is not an index key of the nodes frame
is dropped: merging it changes nothing, a whole batch of such stale
reports leaves format_nodes equal to a bare staleness refresh, and —
the frame condition — rows whose key differs from a report's key survive
any merge unchanged. -/
theorem C8_stale_reports_dropped (s : ServerState) (now : Int) (rs : List NodeReport)
    (h : ∀ r ∈ rs, ∀ row ∈ s.nodes, row.cueNumber ≠ r.cueNumber) :
    rs.foldl applyReport s.nodes = s.nodes ∧
    format_nodes now (some rs) s = update_last_updated now s ∧
    (∀ (nodes : List NodeRow) (rep : NodeReport) (row : NodeRow), row ∈ nodes →
      row.cueNumber ≠ rep.cueNumber → row ∈ applyReport nodes rep) := by
  have hfold : rs.foldl applyReport s.nodes = s.nodes := by
    induction rs with
    | nil => rfl
    | cons r rest ih =>
        have hr : applyReport s.nodes r = s.nodes := by
          unfold applyReport
          rw [if_neg]
          simp only [List.any_eq_true, not_exists, not_and]
          intro row hrow
          simpa using h r (by simp) row hrow
        rw [List.foldl_cons, hr]
        exact ih fun r2 hr2 => h r2 (by simp [hr2])
  refine ⟨hfold, ?_, ?_⟩
  · show update_last_updated now { s with nodes := rs.foldl applyReport s.nodes } =
      update_last_updated now s
    rw [hfold]
  · intro nodes rep row hrow hne
    unfold applyReport
    by_cases hany : nodes.any (fun row => row.cueNumber = rep.cueNumber) = true
    · rw [if_pos hany]
      have : (if row.cueNumber = rep.cueNumber then
          NodeRow.mk row.cueNumber rep.whenV rep.action rep.cueState rep.nodeNumber
            rep.nodeState rep.timestamp none
        else row) = row := by rw [if_neg hne]
      rw [← this]
      exact List.mem_map_of_mem _ hrow
    · rw [if_neg hany]
      exact hrow

/-- C8, witness: a stale report for cue number B9 merged into the
navigation state (whose only key is B2) leaves its nodes frame untouched
and format_nodes equal to a bare refresh. -/
theorem C8_witness :
    [exStaleReport].foldl applyReport exStateNav.nodes = exStateNav.nodes ∧
    format_nodes 500 (some [exStaleReport]) exStateNav = update_last_updated 500 exStateNav :=
  ⟨(C8_stale_reports_dropped exStateNav 500 [exStaleReport] (by decide)).1,
   (C8_stale_reports_dropped exStateNav 500 [exStaleReport] (by decide)).2.1⟩

/-! ## C9 -/

/-- C9, counterexample.  The claim says an elapsed time exceeding 99
minutes yields the over-99 display.  An elapsed time of 5965 seconds —
99 minutes 25 seconds, strictly more than 99 minutes — rounds to 99, so
format_timestamp displays it as a plain 99 minutes instead. -/
theorem C9_counterexample :
    format_timestamp 5965 (some 0) = some "99 min" ∧
    (99 : Int) * 60 < 5965 - 0 ∧
    format_timestamp 5965 (some 0) ≠ some ">99 min" := by
  refine ⟨by decide, by decide, by decide⟩

/-- C9, amended.  The staleness display is computed from the elapsed time
rounded to whole minutes (Python round, ties to even): a rounded value of
at most 99 displays as that many minutes — so an elapsed time a little
over 99 minutes still displays as 99 — a rounded value over 99 displays
as the over-99 marker, and a missing timestamp stays blank; 150 minutes
displays as over 99 and 5 minutes as 5; recomputing the column is
idempotent for a fixed now. -/
theorem C9_staleness_display :
    (∀ now ts : Int, roundMin (now - ts) ≤ 99 →
      format_timestamp now (some ts) = some (toString (roundMin (now - ts)) ++ " min")) ∧
    (∀ now ts : Int, 99 < roundMin (now - ts) →
      format_timestamp now (some ts) = some ">99 min") ∧
    (∀ now : Int, format_timestamp now none = none) ∧
    format_timestamp (150 * 60) (some 0) = some ">99 min" ∧
    format_timestamp (5 * 60) (some 0) = some "5 min" ∧
    (∀ (now : Int) (s : ServerState),
      update_last_updated now (update_last_updated now s) = update_last_updated now s) := by
  refine ⟨fun now ts h => ?_, fun now ts h => ?_, fun now => rfl, by decide, by decide,
    fun now s => ?_⟩
  · show (if roundMin (now - ts) ≤ 99 then some (toString (roundMin (now - ts)) ++ " min")
      else some ">99 min") = some (toString (roundMin (now - ts)) ++ " min")
    rw [if_pos h]
  · show (if roundMin (now - ts) ≤ 99 then some (toString (roundMin (now - ts)) ++ " min")
      else some ">99 min") = some ">99 min"
    rw [if_neg (not_le.mpr h)]
  · cases s with
    | mk a b c d nodes e f =>
      unfold update_last_updated
      simp only [List.map_map]
      congr 1

/-- C9, witness: the plain-minutes law applied at an elapsed time of 300
seconds, whose rounded value 5 is within the cap. -/
theorem C9_witness :
    format_timestamp 300 (some 0) = some (toString (roundMin (300 - 0)) ++ " min") :=
  C9_staleness_display.1 300 0 (by decide)

/-! ## Navigation helpers -/

/-- format_current_cues on a state whose current group is present: the
selection succeeds, the snapshot is reindexed by prefix and the nodes
frame is rebuilt as the empty shell. -/
theorem format_current_cues_eq (s : ServerState)
    (hne : s.allCues.filter (fun r => (r.group : Int) = s.cueNum) ≠ []) :
    format_current_cues s = some (reset_nodes { s with currentCues := snapshotOf s }) := by
  unfold format_current_cues
  rw [if_neg]
  simpa [List.isEmpty_iff] using hne

/-- Under the data-model invariant, the selection of any group number in
range is nonempty. -/
theorem wf_filter_ne (s : ServerState) (m : Nat) (hwf : WF s m) (n : Int)
    (h0 : 0 ≤ n) (h1 : n ≤ (m : Int)) :
    s.allCues.filter (fun r => (r.group : Int) = n) ≠ [] := by
  obtain ⟨r, hr, hg⟩ := hwf.2 n.toNat (by omega)
  apply List.ne_nil_of_mem (a := r)
  apply List.mem_filter.mpr
  refine ⟨hr, ?_⟩
  have hgi : (r.group : Int) = n := by
    rw [hg]
    omega
  simp [hgi]

/-! ## C6 -/

/-- C6.  Under the data-model invariant with maximum group m, warp_cue on
a group number inside 0..m persists that group number and returns True
(recomputing the snapshot, the sequence and maximum untouched); on any
group number outside the range it returns False and hands back the state
completely unchanged. -/
theorem C6_warp_bounds (s : ServerState) (m : Nat) (n : Int) (hwf : WF s m) :
    (0 ≤ n ∧ n ≤ (m : Int) → ∃ s', warp_cue n s = WarpResult.ok true s' ∧
      s'.cueNum = n ∧ s'.allCues = s.allCues ∧ s'.maxCueGroup = s.maxCueGroup) ∧
    (¬(0 ≤ n ∧ n ≤ (m : Int)) → warp_cue n s = WarpResult.ok false s) := by
  have hcond : (0 ≤ n ∧ leMaxGroup n s.maxCueGroup = true) ↔ (0 ≤ n ∧ n ≤ (m : Int)) := by
    rw [hwf.1]
    simp [leMaxGroup]
  constructor
  · rintro ⟨h0, h1⟩
    unfold warp_cue
    rw [if_pos (hcond.mpr ⟨h0, h1⟩)]
    have hne : ({ s with cueNum := n } : ServerState).allCues.filter
        (fun r => (r.group : Int) = n) ≠ [] :=
      wf_filter_ne { s with cueNum := n } m ⟨hwf.1, hwf.2⟩ n h0 h1
    rw [format_current_cues_eq _ hne]
    exact ⟨_, rfl, rfl, rfl, rfl⟩
  · intro h
    unfold warp_cue
    rw [if_neg (fun hh => h (hcond.mp hh))]

/-- C6, witness: on the two-group navigation state, warping to group 1
succeeds and sets the pointer, while warping to group 5 fails and returns
the state unchanged. -/
theorem C6_witness :
    (∃ s', warp_cue 1 exStateNav = WarpResult.ok true s' ∧ s'.cueNum = 1 ∧
      s'.allCues = exStateNav.allCues ∧ s'.maxCueGroup = exStateNav.maxCueGroup) ∧
    warp_cue 5 exStateNav = WarpResult.ok false exStateNav :=
  ⟨(C6_warp_bounds exStateNav 1 1 ⟨rfl, by decide⟩).1 ⟨by decide, by decide⟩,
   (C6_warp_bounds exStateNav 1 5 ⟨rfl, by decide⟩).2 (by decide)⟩

/-! ## C10 -/

/-- C10.  Warping to the group that is already current still succeeds:
the pointer is re-persisted, the snapshot is recomputed from the cue
sequence, and the nodes frame is rebuilt as the empty shell of that
snapshot — whatever node reports had accumulated in it are discarded. -/
theorem C10_warp_current_resets_nodes (s : ServerState) (m : Nat) (hwf : WF s m)
    (h0 : 0 ≤ s.cueNum) (h1 : s.cueNum ≤ (m : Int)) :
    ∃ s', warp_cue s.cueNum s = WarpResult.ok true s' ∧
      s'.cueNum = s.cueNum ∧
      s'.currentCues = snapshotOf s ∧
      s'.nodes = shellOf (snapshotOf s) := by
  have hcond : (0 ≤ s.cueNum ∧ leMaxGroup s.cueNum s.maxCueGroup = true) := by
    rw [hwf.1]
    exact ⟨h0, by simpa [leMaxGroup] using h1⟩
  have hne : ({ s with cueNum := s.cueNum } : ServerState).allCues.filter
      (fun r => (r.group : Int) = s.cueNum) ≠ [] :=
    wf_filter_ne { s with cueNum := s.cueNum } m ⟨hwf.1, hwf.2⟩ s.cueNum h0 h1
  refine ⟨reset_nodes { s with currentCues := snapshotOf s }, ?_, rfl, rfl, rfl⟩
  unfold warp_cue
  rw [if_pos hcond, format_current_cues_eq _ hne]

/-! ## C7 -/

/-- One next_cue step under the invariant: the pointer becomes its
successor modulo maxGroup+1 and the sequence and maximum survive. -/
theorem next_cue_eq (s : ServerState) (m : Nat) (hwf : WF s m)
    (h0 : 0 ≤ s.cueNum) (h1 : s.cueNum ≤ (m : Int)) :
    ∃ s', next_cue s = some s' ∧ s'.cueNum = (s.cueNum + 1) % ((m : Int) + 1) ∧
      s'.allCues = s.allCues ∧ s'.maxCueGroup = s.maxCueGroup := by
  have heq : next_cue s = format_current_cues { s with cueNum :=
      if s.cueNum = (m : Int) then 0 else s.cueNum + 1 } := by
    unfold next_cue
    rw [hwf.1]
  by_cases hc : s.cueNum = (m : Int)
  · rw [hc] at heq h1 ⊢
    rw [if_pos rfl] at heq
    have hne : ({ s with cueNum := (0 : Int) } : ServerState).allCues.filter
        (fun r => (r.group : Int) = (0 : Int)) ≠ [] :=
      wf_filter_ne { s with cueNum := (0 : Int) } m ⟨hwf.1, hwf.2⟩ 0 le_rfl (by omega)
    rw [format_current_cues_eq _ hne] at heq
    refine ⟨_, heq, ?_, rfl, rfl⟩
    show (0 : Int) = ((m : Int) + 1) % ((m : Int) + 1)
    rw [Int.emod_self]
  · rw [if_neg hc] at heq
    have hlt : s.cueNum + 1 ≤ (m : Int) := by omega
    have hne : ({ s with cueNum := s.cueNum + 1 } : ServerState).allCues.filter
        (fun r => (r.group : Int) = s.cueNum + 1) ≠ [] :=
      wf_filter_ne { s with cueNum := s.cueNum + 1 } m ⟨hwf.1, hwf.2⟩ _ (by omega) hlt
    rw [format_current_cues_eq _ hne] at heq
    refine ⟨_, heq, ?_, rfl, rfl⟩
    show s.cueNum + 1 = (s.cueNum + 1) % ((m : Int) + 1)
    rw [Int.emod_eq_of_lt (by omega) (by omega)]

/-- One previous_cue step under the invariant: the pointer becomes its
predecessor modulo maxGroup+1. -/
theorem previous_cue_eq (s : ServerState) (m : Nat) (hwf : WF s m)
    (h0 : 0 ≤ s.cueNum) (h1 : s.cueNum ≤ (m : Int)) :
    ∃ s', previous_cue s = some s' ∧ s'.cueNum = (s.cueNum - 1) % ((m : Int) + 1) ∧
      s'.allCues = s.allCues ∧ s'.maxCueGroup = s.maxCueGroup := by
  by_cases hc : s.cueNum = 0
  · have heq : previous_cue s = format_current_cues
        { s with cueNum := ((m : Nat) : Int), maxCueGroup := some m } := by
      unfold previous_cue
      rw [if_pos hc, hwf.1]
    have hne : ({ s with cueNum := ((m : Nat) : Int), maxCueGroup := some m } :
        ServerState).allCues.filter (fun r => (r.group : Int) = ((m : Nat) : Int)) ≠ [] :=
      wf_filter_ne { s with cueNum := ((m : Nat) : Int), maxCueGroup := some m } m
        ⟨rfl, hwf.2⟩ _ (by omega) le_rfl
    rw [format_current_cues_eq _ hne] at heq
    refine ⟨_, heq, ?_, rfl, hwf.1.symm⟩
    show ((m : Nat) : Int) = (s.cueNum - 1) % ((m : Int) + 1)
    rw [hc]
    have h2 : ((0 : Int) - 1 + ((m : Int) + 1) * 1) % ((m : Int) + 1)
        = ((0 : Int) - 1) % ((m : Int) + 1) := Int.add_mul_emod_self_left _ _ _
    have h3 : ((0 : Int) - 1 + ((m : Int) + 1) * 1) = (m : Int) := by ring
    rw [h3] at h2
    rw [← h2, Int.emod_eq_of_lt (by omega) (by omega)]
  · have heq : previous_cue s = format_current_cues { s with cueNum := s.cueNum - 1 } := by
      unfold previous_cue
      rw [if_neg hc]
    have hne : ({ s with cueNum := s.cueNum - 1 } : ServerState).allCues.filter
        (fun r => (r.group : Int) = s.cueNum - 1) ≠ [] :=
      wf_filter_ne { s with cueNum := s.cueNum - 1 } m ⟨hwf.1, hwf.2⟩ _ (by omega) (by omega)
    rw [format_current_cues_eq _ hne] at heq
    refine ⟨_, heq, ?_, rfl, rfl⟩
    show s.cueNum - 1 = (s.cueNum - 1) % ((m : Int) + 1)
    rw [Int.emod_eq_of_lt (by omega) (by omega)]

/-- Iterating next_cue k times tracks addition modulo maxGroup+1. -/
theorem iterNext_cueNum (m : Nat) : ∀ (k : Nat) (s : ServerState), WF s m →
    0 ≤ s.cueNum → s.cueNum ≤ (m : Int) →
    ∃ s', iterNext k s = some s' ∧
      s'.cueNum = (s.cueNum + (k : Int)) % ((m : Int) + 1) := by
  intro k
  induction k with
  | zero =>
      intro s hwf h0 h1
      refine ⟨s, rfl, ?_⟩
      rw [Int.natCast_zero, add_zero, Int.emod_eq_of_lt h0 (by omega)]
  | succ k ih =>
      intro s hwf h0 h1
      obtain ⟨s1, hns, hc1, ha1, hm1⟩ := next_cue_eq s m hwf h0 h1
      have hwf1 : WF s1 m := ⟨hm1.trans hwf.1, by rw [ha1]; exact hwf.2⟩
      have hb0 : 0 ≤ s1.cueNum := by
        rw [hc1]
        exact Int.emod_nonneg _ (by omega)
      have hb1 : s1.cueNum ≤ (m : Int) := by
        rw [hc1]
        have := Int.emod_lt_of_pos (s.cueNum + 1) (show (0 : Int) < (m : Int) + 1 by omega)
        omega
      obtain ⟨s', hit, hc'⟩ := ih s1 hwf1 hb0 hb1
      refine ⟨s', ?_, ?_⟩
      · show (next_cue s).bind (iterNext k) = some s'
        rw [hns]
        exact hit
      · rw [hc', hc1, Int.emod_add_emod]
        congr 1
        push_cast
        ring

/-- Iterating previous_cue k times tracks subtraction modulo maxGroup+1. -/
theorem iterPrev_cueNum (m : Nat) : ∀ (k : Nat) (s : ServerState), WF s m →
    0 ≤ s.cueNum → s.cueNum ≤ (m : Int) →
    ∃ s', iterPrev k s = some s' ∧
      s'.cueNum = (s.cueNum - (k : Int)) % ((m : Int) + 1) := by
  intro k
  induction k with
  | zero =>
      intro s hwf h0 h1
      refine ⟨s, rfl, ?_⟩
      rw [Int.natCast_zero, sub_zero, Int.emod_eq_of_lt h0 (by omega)]
  | succ k ih =>
      intro s hwf h0 h1
      obtain ⟨s1, hns, hc1, ha1, hm1⟩ := previous_cue_eq s m hwf h0 h1
      have hwf1 : WF s1 m := ⟨hm1.trans hwf.1, by rw [ha1]; exact hwf.2⟩
      have hb0 : 0 ≤ s1.cueNum := by
        rw [hc1]
        exact Int.emod_nonneg _ (by omega)
      have hb1 : s1.cueNum ≤ (m : Int) := by
        rw [hc1]
        have := Int.emod_lt_of_pos (s.cueNum - 1) (show (0 : Int) < (m : Int) + 1 by omega)
        omega
      obtain ⟨s', hit, hc'⟩ := ih s1 hwf1 hb0 hb1
      refine ⟨s', ?_, ?_⟩
      · show (previous_cue s).bind (iterPrev k) = some s'
        rw [hns]
        exact hit
      · rw [hc', hc1]
        have e1 : ((s.cueNum - 1) % ((m : Int) + 1) - (k : Int)) % ((m : Int) + 1)
            = (s.cueNum - 1 - (k : Int)) % ((m : Int) + 1) := by
          conv_lhs => rw [Int.sub_emod]
          conv_rhs => rw [Int.sub_emod]
          rw [Int.emod_emod_of_dvd _ dvd_rfl]
        rw [e1]
        congr 1
        push_cast
        ring

/-- C7.  From any pointer inside 0..maxGroup, maxGroup+1 applications of
next_cue return the pointer to its starting value, and so do maxGroup+1
applications of previous_cue (the wraparound laws). -/
theorem C7_wraparound (s : ServerState) (m : Nat) (hwf : WF s m)
    (h0 : 0 ≤ s.cueNum) (h1 : s.cueNum ≤ (m : Int)) :
    (∃ s', iterNext (m + 1) s = some s' ∧ s'.cueNum = s.cueNum) ∧
    (∃ s', iterPrev (m + 1) s = some s' ∧ s'.cueNum = s.cueNum) := by
  constructor
  · obtain ⟨s', hit, hc⟩ := iterNext_cueNum m (m + 1) s hwf h0 h1
    refine ⟨s', hit, ?_⟩
    rw [hc]
    have h2 : (s.cueNum + ((m : Int) + 1) * 1) % ((m : Int) + 1)
        = s.cueNum % ((m : Int) + 1) := Int.add_mul_emod_self_left _ _ _
    have h3 : s.cueNum + (((m + 1) : Nat) : Int) = s.cueNum + ((m : Int) + 1) * 1 := by
      push_cast
      ring
    rw [h3, h2, Int.emod_eq_of_lt h0 (by omega)]
  · obtain ⟨s', hit, hc⟩ := iterPrev_cueNum m (m + 1) s hwf h0 h1
    refine ⟨s', hit, ?_⟩
    rw [hc]
    have h2 : (s.cueNum - ((m : Int) + 1) + ((m : Int) + 1) * 1) % ((m : Int) + 1)
        = (s.cueNum - ((m : Int) + 1)) % ((m : Int) + 1) := Int.add_mul_emod_self_left _ _ _
    have h3 : s.cueNum - ((m : Int) + 1) + ((m : Int) + 1) * 1 = s.cueNum := by ring
    have h4 : s.cueNum - (((m + 1) : Nat) : Int) = s.cueNum - ((m : Int) + 1) := by
      push_cast
      ring
    rw [h4, ← h2, h3, Int.emod_eq_of_lt h0 (by omega)]

/-- C7, witness: on the two-group navigation state (maxGroup 1) starting
at group 1, two next steps and two previous steps each return the pointer
to 1. -/
theorem C7_witness :
    (∃ s', iterNext 2 exStateNav = some s' ∧ s'.cueNum = exStateNav.cueNum) ∧
    (∃ s', iterPrev 2 exStateNav = some s' ∧ s'.cueNum = exStateNav.cueNum) :=
  C7_wraparound exStateNav 1 ⟨rfl, by decide⟩ (by decide) (by decide)

/-- C10, witness: warping to the already-current group 1 of the
navigation state — whose nodes frame holds a populated report row —
succeeds and leaves the freshly reset shell. -/
theorem C10_witness :
    ∃ s', warp_cue exStateNav.cueNum exStateNav = WarpResult.ok true s' ∧
      s'.cueNum = exStateNav.cueNum ∧
      s'.currentCues = snapshotOf exStateNav ∧
      s'.nodes = shellOf (snapshotOf exStateNav) :=
  C10_warp_current_resets_nodes exStateNav 1 ⟨rfl, by decide⟩ (by decide) (by decide)

/-! ## C1: characterizing the cue-compiler pipeline -/

/-- __get_prefix never raises on the sentinel cue number: a unique match
returns it, anything else falls into the sentinel branch. -/
theorem getPfx_lrs (attrs : List String) :
    ∃ o, getPfx attrs "last_row_storage" = Except.ok o := by
  unfold getPfx
  cases h : attrs.filter (fun p => p = potentialPfx "last_row_storage") with
  | nil => exact ⟨none, if_pos rfl⟩
  | cons p ps =>
      cases ps with
      | nil => exact ⟨some p, rfl⟩
      | cons q qs => exact ⟨none, if_pos rfl⟩

/-- All-NaN cells means equality with the blank triple. -/
theorem blankVals_of_isBlankVals {v : Vals} (h : isBlankVals v = true) : v = blankVals := by
  obtain ⟨a, b, c⟩ := v
  cases a <;> cases b <;> cases c <;> simp [isBlankVals] at h ⊢ <;> rfl

/-- Full cells are not blank. -/
theorem not_blank_of_full {v : Vals} (h : isFullVals v = true) : isBlankVals v = false := by
  obtain ⟨a, b, c⟩ := v
  cases a <;> cases b <;> cases c <;> simp [isFullVals, isBlankVals] at h ⊢

/-- A valid row is fully blank or a completely filled non-sentinel row
with a uniquely resolving prefix and a known state. -/
theorem valid_cases (attrs stateKeys : List String) (r : RawRow)
    (h : validRow attrs stateKeys r = true) :
    r = ⟨none, blankVals⟩ ∨
    ∃ c w a st, r = ⟨some c, (some w, some a, some st)⟩ ∧ c ≠ "last_row_storage" ∧
      (attrs.filter (fun p => p = potentialPfx c)).length = 1 ∧ st ∈ stateKeys := by
  obtain ⟨cn, v⟩ := r
  obtain ⟨v1, v2, v3⟩ := v
  cases cn with
  | none =>
      left
      cases v1 <;> cases v2 <;> cases v3 <;>
        simp [validRow, isBlankRow, isBlankVals, blankVals] at h ⊢
  | some c =>
      right
      cases v1 with
      | none => simp [validRow, isBlankRow, isBlankVals] at h
      | some w =>
        cases v2 with
        | none => simp [validRow, isBlankRow, isBlankVals] at h
        | some a =>
          cases v3 with
          | none => simp [validRow, isBlankRow, isBlankVals] at h
          | some st =>
              simp only [validRow, isBlankRow, isBlankVals, Bool.or_eq_true,
                Bool.and_eq_true, beq_iff_eq, Bool.not_eq_true', Nat.beq_eq_true_eq] at h
              rcases h with h | ⟨⟨hlrs, hlen⟩, hmem⟩
              · simp at h
              · exact ⟨c, w, a, st, rfl, by simpa using hlrs, hlen,
                  List.mem_of_elem_eq_true hmem⟩

/-- Without the sentinel cue number among the rows, the dataframe.loc
assignment appends a fresh sentinel row. -/
theorem addLrs_eq (rows : List RawRow)
    (h : ∀ r ∈ rows, r.cueNumber ≠ some "last_row_storage") :
    addLrs rows = rows ++ [⟨some "last_row_storage", blankVals⟩] := by
  unfold addLrs
  rw [if_neg]
  simp only [List.any_eq_true, not_exists, not_and]
  intro r hr
  simpa using h r hr

/-- Fusion law for the front of the pipeline: appending the sentinel,
shifting down and dropping all-NaN rows is the kept recursion. -/
theorem kept_eq : ∀ (rows : List RawRow) (p : Vals),
    (shiftDown p (rows ++ [⟨some "last_row_storage", blankVals⟩])).filter keepAll
      = kept p rows := by
  intro rows
  induction rows with
  | nil =>
      intro p
      show (shiftDown p [⟨some "last_row_storage", blankVals⟩]).filter keepAll = kept p []
      simp [shiftDown, kept, keepAll, List.filter]
  | cons r rs ih =>
      intro p
      show (shiftDown p ((r :: rs) ++ [⟨some "last_row_storage", blankVals⟩])).filter keepAll
        = kept p (r :: rs)
      rw [List.cons_append]
      show (RawRow.mk r.cueNumber p ::
        shiftDown r.vals (rs ++ [⟨some "last_row_storage", blankVals⟩])).filter keepAll
        = kept p (r :: rs)
      rw [List.filter_cons]
      unfold kept
      by_cases hk : keepAll ⟨r.cueNumber, p⟩ = true
      · rw [if_pos hk, if_pos hk, ih r.vals]
      · rw [if_neg hk, if_neg hk, ih r.vals]

/-- Fusion law for the back of the pipeline: shifting up and dropping
incomplete rows pairs each row with its successor's cells. -/
theorem pairedOut_eq : ∀ (l : List LoopRow),
    (shiftUp l).filterMap finalize = pairedOut l := by
  intro l
  induction l with
  | nil => rfl
  | cons r l ih =>
      cases l with
      | nil => rfl
      | cons r2 t =>
          show ((⟨r.group, r.cueNumber, r2.pfx, r2.vals⟩ : LoopRow) ::
            shiftUp (r2 :: t)).filterMap finalize = pairedOut (r :: r2 :: t)
          rw [List.filterMap_cons]
          simp only [pairedOut]
          rw [ih]
          cases hf : finalize ⟨r.group, r.cueNumber, r2.pfx, r2.vals⟩ with
          | none => rfl
          | some c => rfl

/-- pairedOut never reads its head's data cells. -/
theorem pairedOut_head_irrel (g : Nat) (i : Option String) (p p2 : Option String)
    (v v2 : Vals) (l : List LoopRow) :
    pairedOut (⟨g, i, p, v⟩ :: l) = pairedOut (⟨g, i, p2, v2⟩ :: l) := by
  cases l with
  | nil => rfl
  | cons r2 t => rfl

/-- The loop's group column steps uniformly: the head records the
incremented-on-blank counter, the tail continues from it. -/
theorem groupCol_cons (g : Nat) (i : Option String) (is : List (Option String)) :
    groupCol g (i :: is) =
      (if i.isNone then g + 1 else g) :: groupCol (if i.isNone then g + 1 else g) is := by
  cases i <;> rfl

/-- A successful prefix-column computation over a nonempty list splits
into its head prefix and tail column. -/
theorem qList_shape (attrs : List String) (a : Option String) (l : List (Option String))
    (vs : List (Option String)) (h : qList attrs (a :: l) = Except.ok vs) :
    ∃ v vs', vs = v :: vs' ∧ qfun attrs a = Except.ok v ∧ qList attrs l = Except.ok vs' := by
  unfold qList at h
  cases hfa : qfun attrs a with
  | error e => rw [hfa] at h; exact Except.noConfusion h
  | ok v =>
      rw [hfa] at h
      cases hml : qList attrs l with
      | error e => rw [hml] at h; exact Except.noConfusion h
      | ok vs' =>
          rw [hml] at h
          exact ⟨v, vs', (Except.ok.inj h).symm, rfl, rfl⟩

/-- Pure fusion of the loop stages: computing the prefix column, zipping
with the group and shifted prefix columns, shifting up and dropping
incomplete rows equals the single-pass fused recursion. -/
theorem stage_eq_fused (attrs : List String) : ∀ (ks : List RawRow) (g : Nat),
    Except.bind (qList attrs (ks.map (fun r => r.cueNumber))) (fun qs =>
      Except.ok (pairedOut (mkLoopRows ks (groupCol g (ks.map (fun r => r.cueNumber)))
        (none :: qs.dropLast))))
    = fused attrs g ks := by
  intro ks
  induction ks with
  | nil => intro g; rfl
  | cons k ks ih =>
      intro g
      cases ks with
      | nil =>
          cases hq : qfun attrs k.cueNumber with
          | error e =>
              have h1 : qList attrs ([k].map (fun r => r.cueNumber)) = Except.error e := by
                show qList attrs [k.cueNumber] = _
                unfold qList
                rw [hq]
                rfl
              rw [h1]
              show Except.error e = fused attrs g [k]
              unfold fused
              rw [hq]
              rfl
          | ok v =>
              have h1 : qList attrs ([k].map (fun r => r.cueNumber)) = Except.ok [v] := by
                show qList attrs [k.cueNumber] = _
                unfold qList
                rw [hq]
                rfl
              rw [h1]
              show Except.ok (pairedOut (mkLoopRows [k] (groupCol g [k.cueNumber]) [none]))
                = fused attrs g [k]
              rw [groupCol_cons]
              show Except.ok [] = fused attrs g [k]
              unfold fused
              rw [hq]
              rfl
      | cons k2 rest =>
          cases hq : qfun attrs k.cueNumber with
          | error e =>
              have h1 : qList attrs ((k :: k2 :: rest).map (fun r => r.cueNumber))
                  = Except.error e := by
                show qList attrs (k.cueNumber :: (k2 :: rest).map (fun r => r.cueNumber)) = _
                unfold qList
                rw [hq]
                rfl
              rw [h1]
              show Except.error e = fused attrs g (k :: k2 :: rest)
              unfold fused
              rw [hq]
              rfl
          | ok v =>
              cases hm : qList attrs ((k2 :: rest).map (fun r => r.cueNumber)) with
              | error e2 =>
                  have h1 : qList attrs ((k :: k2 :: rest).map (fun r => r.cueNumber))
                      = Except.error e2 := by
                    show qList attrs (k.cueNumber :: (k2 :: rest).map (fun r => r.cueNumber)) = _
                    unfold qList
                    rw [hq, hm]
                    rfl
                  have hf2 : fused attrs (if k.cueNumber.isNone then g + 1 else g)
                      (k2 :: rest) = Except.error e2 := by
                    rw [← ih, hm]
                    rfl
                  rw [h1]
                  show Except.error e2 = fused attrs g (k :: k2 :: rest)
                  unfold fused
                  rw [hq, hf2]
                  rfl
              | ok vs2 =>
                  have h1 : qList attrs ((k :: k2 :: rest).map (fun r => r.cueNumber))
                      = Except.ok (v :: vs2) := by
                    show qList attrs (k.cueNumber :: (k2 :: rest).map (fun r => r.cueNumber)) = _
                    unfold qList
                    rw [hq, hm]
                    rfl
                  have hm0 : qList attrs (k2.cueNumber :: rest.map (fun r => r.cueNumber))
                      = Except.ok vs2 := hm
                  obtain ⟨v2, vs', hvs, hq2, hm2⟩ := qList_shape attrs k2.cueNumber
                    (rest.map (fun r => r.cueNumber)) vs2 hm0
                  subst hvs
                  have hf2 : fused attrs (if k.cueNumber.isNone then g + 1 else g)
                      (k2 :: rest) = Except.ok (pairedOut (mkLoopRows (k2 :: rest)
                        (groupCol (if k.cueNumber.isNone then g + 1 else g)
                          ((k2 :: rest).map (fun r => r.cueNumber)))
                        (none :: (v2 :: vs').dropLast))) := by
                    rw [← ih, hm]
                    rfl
                  rw [h1]
                  show Except.ok (pairedOut (mkLoopRows (k :: k2 :: rest)
                      (groupCol g ((k :: k2 :: rest).map (fun r => r.cueNumber)))
                      (none :: (v :: v2 :: vs').dropLast)))
                    = fused attrs g (k :: k2 :: rest)
                  rw [show (k :: k2 :: rest).map (fun r => r.cueNumber)
                      = k.cueNumber :: (k2 :: rest).map (fun r => r.cueNumber) from rfl]
                  rw [groupCol_cons, List.dropLast_cons₂]
                  rw [show (k2 :: rest).map (fun r => r.cueNumber)
                      = k2.cueNumber :: rest.map (fun r => r.cueNumber) from rfl] at hf2 ⊢
                  rw [groupCol_cons] at hf2 ⊢
                  unfold fused
                  rw [hq, hf2]
                  simp only [mkLoopRows, pairedOut]
                  rw [pairedOut_head_irrel (if k2.cueNumber.isNone
                    then (if k.cueNumber.isNone then g + 1 else g) + 1
                    else (if k.cueNumber.isNone then g + 1 else g))
                    k2.cueNumber v none k2.vals k2.vals]
                  rfl

/-- The head of the kept list always carries the accumulated predecessor
cells: the dropped rows are exactly those blank in both respects, and on
valid rows blankness of the accumulator and of the dropped row's cells
coincide. -/
theorem kept_head (attrs stateKeys : List String) : ∀ (rs : List RawRow),
    (∀ x ∈ rs, validRow attrs stateKeys x = true) → ∀ (v : Vals),
    ∃ i t2, kept v rs = RawRow.mk i v :: t2 := by
  intro rs
  induction rs with
  | nil => exact fun _ v => ⟨some "last_row_storage", [], rfl⟩
  | cons r rs ih =>
      intro hv v
      by_cases hk : keepAll ⟨r.cueNumber, v⟩ = true
      · refine ⟨r.cueNumber, kept r.vals rs, ?_⟩
        show kept v (r :: rs) = _
        simp only [kept]
        rw [if_pos hk]
      · have h1 : r.cueNumber = none ∧ isBlankVals v = true := by
          unfold keepAll at hk
          rcases ho : r.cueNumber with _ | c
          · constructor
            · rfl
            · rw [ho] at hk
              simp at hk
              simpa using hk
          · rw [ho] at hk
            simp at hk
        have hrv : r.vals = blankVals := by
          obtain hb | ⟨c, w, a, st, hr, _, _, _⟩ :=
            valid_cases attrs stateKeys r (hv r (by simp))
          · rw [hb]
          · rw [hr] at h1
            exact absurd h1.1 (by simp)
        have hvb : v = blankVals := blankVals_of_isBlankVals h1.2
        obtain ⟨i, t2, ht⟩ := ih (fun x hx => hv x (by simp [hx])) blankVals
        refine ⟨i, t2, ?_⟩
        show kept v (r :: rs) = _
        simp only [kept]
        rw [if_neg hk, hrv, hvb]
        exact ht


/-- The unfolding equation of fused on two or more rows, spelled with
explicit binds. -/
theorem fused_cons_cons (attrs : List String) (g : Nat) (k k2 : RawRow)
    (rest : List RawRow) :
    fused attrs g (k :: k2 :: rest) =
      Except.bind (qfun attrs k.cueNumber) (fun pk =>
        Except.bind (fused attrs (if k.cueNumber.isNone then g + 1 else g) (k2 :: rest))
          (fun tl => Except.ok ((match finalize ⟨if k.cueNumber.isNone then g + 1 else g,
              k.cueNumber, pk, k2.vals⟩ with
            | some c => [c]
            | none => []) ++ tl))) := by
  simp only [fused]
  rfl

/-- The central equivalence: on valid rows the fused pipeline computation
equals the direct one-pass compiler, in the skip state when the
accumulated predecessor cells are blank and in the run state when they
are full. -/
theorem main_fused (attrs stateKeys : List String) : ∀ (rows : List RawRow),
    (∀ r ∈ rows, validRow attrs stateKeys r = true) → ∀ (g : Nat),
    fused attrs g (kept blankVals rows) = Except.ok (specSkip attrs g rows) ∧
    (∀ p : Vals, isFullVals p = true →
      fused attrs g (kept p rows) = Except.ok (specRun attrs g rows)) := by
  intro rows
  induction rows with
  | nil =>
      intro _ g
      obtain ⟨o, ho⟩ := getPfx_lrs attrs
      have hfb : ∀ q : Vals, fused attrs g (kept q []) = Except.ok [] := by
        intro q
        show fused attrs g [⟨some "last_row_storage", q⟩] = Except.ok []
        show Except.bind (getPfx attrs "last_row_storage") (fun _ => Except.ok [])
          = Except.ok []
        rw [ho]
        rfl
      exact ⟨hfb blankVals, fun p _ => hfb p⟩
  | cons r rs ih =>
      intro hv g
      have hvr : validRow attrs stateKeys r = true := hv r (by simp)
      have hvs : ∀ x ∈ rs, validRow attrs stateKeys x = true :=
        fun x hx => hv x (by simp [hx])
      obtain hb | ⟨c, w, a, st, hr, hclrs, hres, hst⟩ := valid_cases attrs stateKeys r hvr
      · -- blank row
        subst hb
        constructor
        · -- skip state: the blank row is dropped and no group starts
          have e1 : kept blankVals ((⟨none, blankVals⟩ : RawRow) :: rs)
              = kept blankVals rs := by
            simp only [kept]
            rw [if_neg (by decide)]
          have e2 : specSkip attrs g ((⟨none, blankVals⟩ : RawRow) :: rs)
              = specSkip attrs g rs := by
            simp only [specSkip]
            rw [if_pos (by decide)]
          rw [e1, e2]
          exact (ih hvs g).1
        · -- run state: the blank row survives and starts group g+1
          intro p hp
          have hkeep : keepAll ⟨(none : Option String), p⟩ = true := by
            unfold keepAll
            rw [not_blank_of_full hp]
            rfl
          have e1 : kept p ((⟨none, blankVals⟩ : RawRow) :: rs)
              = RawRow.mk none p :: kept blankVals rs := by
            simp only [kept]
            rw [if_pos hkeep]
          rw [e1]
          obtain ⟨i2, t2, ht⟩ := kept_head attrs stateKeys rs hvs blankVals
          rw [ht, fused_cons_cons]
          rw [show (if (RawRow.mk none p).cueNumber.isNone then g + 1 else g) = g + 1
            from rfl]
          rw [← ht, (ih hvs (g + 1)).1]
          have e4 : specRun attrs g ((⟨none, blankVals⟩ : RawRow) :: rs)
              = specSkip attrs (g + 1) rs := by
            simp only [specRun]
            rw [if_pos (by decide)]
          rw [e4]
          rfl
      · -- filled row
        subst hr
        obtain ⟨p0, hp0⟩ := List.length_eq_one.mp hres
        have hq : qfun attrs (some c) = Except.ok (some p0) := by
          show getPfx attrs c = Except.ok (some p0)
          unfold getPfx
          rw [hp0]
        have hmk : mkOut attrs g (⟨some c, (some w, some a, some st)⟩ : RawRow)
            = CueRow.mk g (some c) p0 w a st := by
          unfold mkOut
          show CueRow.mk g (some c)
            ((attrs.filter (fun p => p = potentialPfx ((some c).getD ""))).headD "") w a st = _
          rw [show (some c).getD "" = c from rfl, hp0]
          rfl
        have hnb : ¬(isBlankRow (⟨some c, (some w, some a, some st)⟩ : RawRow) = true) := by
          rw [show isBlankRow (⟨some c, (some w, some a, some st)⟩ : RawRow) = false from rfl]
          exact Bool.false_ne_true
        have hstep : ∀ p : Vals,
            fused attrs g (kept p ((⟨some c, (some w, some a, some st)⟩ : RawRow) :: rs))
              = Except.ok (CueRow.mk g (some c) p0 w a st :: specRun attrs g rs) := by
          intro p
          have e1 : kept p ((⟨some c, (some w, some a, some st)⟩ : RawRow) :: rs)
              = RawRow.mk (some c) p :: kept (some w, some a, some st) rs := by
            simp only [kept]
            rw [if_pos (by rfl)]
          rw [e1]
          obtain ⟨i2, t2, ht⟩ := kept_head attrs stateKeys rs hvs (some w, some a, some st)
          rw [ht, fused_cons_cons]
          rw [show (if (RawRow.mk (some c) p).cueNumber.isNone then g + 1 else g) = g
            from rfl]
          rw [show qfun attrs ((RawRow.mk (some c) p).cueNumber) = Except.ok (some p0)
            from hq]
          rw [← ht, (ih hvs g).2 (some w, some a, some st) rfl]
          rfl
        constructor
        · rw [hstep blankVals]
          have e4 : specSkip attrs g ((⟨some c, (some w, some a, some st)⟩ : RawRow) :: rs)
              = mkOut attrs g (⟨some c, (some w, some a, some st)⟩ : RawRow)
                  :: specRun attrs g rs := by
            simp only [specSkip]
            rw [if_neg hnb]
          rw [e4, hmk]
        · intro p _
          rw [hstep p]
          have e4 : specRun attrs g ((⟨some c, (some w, some a, some st)⟩ : RawRow) :: rs)
              = mkOut attrs g (⟨some c, (some w, some a, some st)⟩ : RawRow)
                  :: specRun attrs g rs := by
            simp only [specRun]
            rw [if_neg hnb]
          rw [e4, hmk]

/-- On valid rows, every compiled row's prefix is an attribute prefix and
every compiled row's state is a known state key (both compiler states). -/
theorem spec_mem (attrs stateKeys : List String) : ∀ (rows : List RawRow),
    (∀ r ∈ rows, validRow attrs stateKeys r = true) → ∀ (g : Nat),
    (∀ cr ∈ specRun attrs g rows, cr.cuePfx ∈ attrs ∧ cr.cueState ∈ stateKeys) ∧
    (∀ cr ∈ specSkip attrs g rows, cr.cuePfx ∈ attrs ∧ cr.cueState ∈ stateKeys) := by
  intro rows
  induction rows with
  | nil =>
      intro _ g
      constructor
      · intro cr hcr
        simp [specRun] at hcr
      · intro cr hcr
        simp [specSkip] at hcr
  | cons r rs ih =>
      intro hv g
      have hvr : validRow attrs stateKeys r = true := hv r (by simp)
      have hvs : ∀ x ∈ rs, validRow attrs stateKeys x = true :=
        fun x hx => hv x (by simp [hx])
      have hmk : isBlankRow r = false →
          (mkOut attrs g r).cuePfx ∈ attrs ∧ (mkOut attrs g r).cueState ∈ stateKeys := by
        intro hnbl
        obtain hb | ⟨c, w, a, st, hr, _, hres, hst⟩ := valid_cases attrs stateKeys r hvr
        · subst hb
          exact absurd hnbl (by decide)
        · subst hr
          obtain ⟨p0, hp0⟩ := List.length_eq_one.mp hres
          have hp0mem : p0 ∈ attrs := by
            have : p0 ∈ attrs.filter (fun p => p = potentialPfx c) := by
              rw [hp0]
              simp
            exact List.mem_of_mem_filter this
          constructor
          · show ((attrs.filter (fun p =>
              p = potentialPfx ((some c).getD ""))).headD "") ∈ attrs
            rw [show (some c).getD "" = c from rfl, hp0]
            exact hp0mem
          · exact hst
      constructor
      · intro cr hcr
        by_cases hbl : isBlankRow r = true
        · rw [show specRun attrs g (r :: rs) = specSkip attrs (g + 1) rs by
            simp only [specRun]; rw [if_pos hbl]] at hcr
          exact (ih hvs (g + 1)).2 cr hcr
        · rw [show specRun attrs g (r :: rs) = mkOut attrs g r :: specRun attrs g rs by
            simp only [specRun]; rw [if_neg hbl]] at hcr
          rcases List.mem_cons.mp hcr with hcr | hcr
          · subst hcr
            exact hmk (Bool.not_eq_true _ ▸ hbl)
          · exact (ih hvs g).1 cr hcr
      · intro cr hcr
        by_cases hbl : isBlankRow r = true
        · rw [show specSkip attrs g (r :: rs) = specSkip attrs g rs by
            simp only [specSkip]; rw [if_pos hbl]] at hcr
          exact (ih hvs g).2 cr hcr
        · rw [show specSkip attrs g (r :: rs) = mkOut attrs g r :: specRun attrs g rs by
            simp only [specSkip]; rw [if_neg hbl]] at hcr
          rcases List.mem_cons.mp hcr with hcr | hcr
          · subst hcr
            exact hmk (Bool.not_eq_true _ ▸ hbl)
          · exact (ih hvs g).1 cr hcr

/-- A headed chain is in particular a chain from its seed. -/
theorem chain_of_headed (l : List Nat) (g : Nat) (h : headedB g l = true) :
    chainFromB g l = true := by
  cases l with
  | nil => rfl
  | cons x xs =>
      unfold headedB at h
      unfold chainFromB
      rcases Bool.and_eq_true_iff.mp h with ⟨h1, h2⟩
      rw [Nat.beq_eq_true_eq] at h1
      subst h1
      simp [h2]

/-- A chain seeded one higher is also a chain from the lower seed. -/
theorem chain_of_headed_succ (l : List Nat) (g : Nat) (h : headedB (g + 1) l = true) :
    chainFromB g l = true := by
  cases l with
  | nil => rfl
  | cons x xs =>
      unfold headedB at h
      unfold chainFromB
      rcases Bool.and_eq_true_iff.mp h with ⟨h1, h2⟩
      rw [Nat.beq_eq_true_eq] at h1
      subst h1
      simp [h2]

/-- The group numbers of the one-pass compiler: in the skip state the
first emitted group is exactly the seed, and in both states successive
group numbers never skip. -/
theorem spec_groups (attrs : List String) : ∀ (rows : List RawRow) (g : Nat),
    headedB g ((specSkip attrs g rows).map (fun c => c.group)) = true ∧
    chainFromB g ((specRun attrs g rows).map (fun c => c.group)) = true := by
  intro rows
  induction rows with
  | nil => intro g; exact ⟨rfl, rfl⟩
  | cons r rs ih =>
      intro g
      by_cases hbl : isBlankRow r = true
      · rw [show specSkip attrs g (r :: rs) = specSkip attrs g rs by
          simp only [specSkip]; rw [if_pos hbl]]
        rw [show specRun attrs g (r :: rs) = specSkip attrs (g + 1) rs by
          simp only [specRun]; rw [if_pos hbl]]
        exact ⟨(ih g).1, chain_of_headed_succ _ g (ih (g + 1)).1⟩
      · rw [show specSkip attrs g (r :: rs) = mkOut attrs g r :: specRun attrs g rs by
          simp only [specSkip]; rw [if_neg hbl]]
        rw [show specRun attrs g (r :: rs) = mkOut attrs g r :: specRun attrs g rs by
          simp only [specRun]; rw [if_neg hbl]]
        rw [List.map_cons]
        have hgr : (mkOut attrs g r).group = g := rfl
        constructor
        · unfold headedB
          rw [hgr]
          simp [(ih g).2]
        · unfold chainFromB
          rw [hgr]
          simp [(ih g).2]

/-- Every value between the seed (exclusive) and any list element is hit
by a 0/1-step chain. -/
theorem chain_mem : ∀ (l : List Nat) (g : Nat), chainFromB g l = true →
    ∀ k, g < k → (∃ x ∈ l, k ≤ x) → k ∈ l := by
  intro l
  induction l with
  | nil =>
      intro g _ k _ hx
      obtain ⟨x, hx, _⟩ := hx
      exact absurd hx (by simp)
  | cons x xs ih =>
      intro g hch k hgk hex
      unfold chainFromB at hch
      rcases Bool.and_eq_true_iff.mp hch with ⟨h1, h2⟩
      by_cases hkx : k = x
      · subst hkx
        exact List.mem_cons_self _ _
      · apply List.mem_cons_of_mem
        have hxk : x < k := by
          have : x = g ∨ x = g + 1 := by
            rcases Bool.or_eq_true_iff.mp h1 with h | h
            · exact Or.inl (Nat.beq_eq_true_eq _ _ |>.mp h)
            · exact Or.inr (Nat.beq_eq_true_eq _ _ |>.mp h)
          omega
        apply ih x h2 k hxk
        obtain ⟨y, hy, hky⟩ := hex
        rcases List.mem_cons.mp hy with hy | hy
        · subst hy
          omega
        · exact ⟨y, hy, hky⟩

/-- A headed-from-0 chain contains every value up to any of its
elements. -/
theorem headed_mem (l : List Nat) (h : headedB 0 l = true) :
    ∀ k, (∃ x ∈ l, k ≤ x) → k ∈ l := by
  intro k hex
  cases l with
  | nil =>
      obtain ⟨x, hx, _⟩ := hex
      exact absurd hx (by simp)
  | cons x xs =>
      have hx0 : x = 0 := by
        unfold headedB at h
        rcases Bool.and_eq_true_iff.mp h with ⟨h1, _⟩
        exact Nat.beq_eq_true_eq _ _ |>.mp h1
      by_cases hk : k = 0
      · subst hk
        rw [hx0.symm] at *
        exact hx0 ▸ List.mem_cons_self _ _
      · exact chain_mem (x :: xs) 0 (chain_of_headed _ _ h) k (by omega) hex

/-- A matching column set passes __check_columns_names. -/
theorem check_columns_ok (c e : List String) (h : sortStrs c = sortStrs e) :
    check_columns_names c e = Except.ok () := by
  unfold check_columns_names
  rw [if_pos h]

/-- The whole unformatted compile path, re-expressed through the fused
single pass followed by the cue-state check. -/
theorem compileAllCues_eq (attrs stateKeys : List String) (t : RawTable)
    (hcols : sortStrs t.columns = sortStrs ["Cue Number", "When", "Action", "Cue State"])
    (hlrs : ∀ r ∈ t.rows, r.cueNumber ≠ some "last_row_storage") :
    compileAllCues attrs stateKeys t =
      Except.bind (fused attrs 0 (kept blankVals t.rows)) (fun out =>
        if out.any (fun r => !(stateKeys.contains r.cueState)) then Except.error "cue states"
        else Except.ok out) := by
  rw [← stage_eq_fused attrs (kept blankVals t.rows) 0]
  unfold compileAllCues
  simp only []
  rw [check_columns_ok _ _ hcols]
  rw [addLrs_eq t.rows hlrs, kept_eq]
  rw [check_columns_ok ["Cue Group Number", "Cue Number", "Cue Prefix", "When", "Action",
    "Cue State"] ["Cue Group Number", "Cue Number", "Cue Prefix", "When", "Action",
    "Cue State"] rfl]
  cases hq : qList attrs ((kept blankVals t.rows).map (fun r => r.cueNumber)) with
  | error e => rfl
  | ok qs =>
      simp only [Except.bind]
      show (if ((List.filterMap finalize (shiftUp (mkLoopRows (kept blankVals t.rows)
          (groupCol 0 ((kept blankVals t.rows).map (fun r => r.cueNumber)))
          (none :: qs.dropLast)))).any fun r => !stateKeys.contains r.cueState) = true then
            Except.error "cue states"
          else Except.ok (List.filterMap finalize (shiftUp (mkLoopRows (kept blankVals t.rows)
            (groupCol 0 ((kept blankVals t.rows).map (fun r => r.cueNumber)))
            (none :: qs.dropLast))))) = _
      rw [pairedOut_eq]

/-- C1.  For every valid raw cue table — correct column set, every row
fully blank or fully filled with a uniquely resolving prefix and a known
cue state — format_all_cues compiles successfully, and the result equals
the direct one-pass compiler of the spec: groups are assigned in source
order starting at 0, increasing by exactly 1 at each blank-row boundary;
consequently the emitted group numbers are exactly the contiguous range
0..maxGroup (head 0, steps of 0 or 1, every value up to the maximum hit),
and every compiled cue's resolved prefix is an attribute prefix and its
cue state a known state key. -/
theorem C1_compile_valid (attrs stateKeys : List String) (t : RawTable)
    (hv : ValidTable attrs stateKeys t) :
    compileAllCues attrs stateKeys t = Except.ok (specCompile attrs t.rows) ∧
    (∀ cr ∈ specCompile attrs t.rows, cr.cuePfx ∈ attrs ∧ cr.cueState ∈ stateKeys) ∧
    headedB 0 ((specCompile attrs t.rows).map (fun c => c.group)) = true ∧
    (∀ m, maxGroupOf (specCompile attrs t.rows) = some m →
      ∀ k, k ≤ m → k ∈ (specCompile attrs t.rows).map (fun c => c.group)) := by
  obtain ⟨hcols, hrows⟩ := hv
  have hlrs : ∀ r ∈ t.rows, r.cueNumber ≠ some "last_row_storage" := by
    intro r hr
    obtain hb | ⟨c, w, a, st, hre, hcl, _, _⟩ := valid_cases attrs stateKeys r (hrows r hr)
    · rw [hb]
      simp
    · rw [hre]
      simpa using hcl
  have hmem : ∀ cr ∈ specSkip attrs 0 t.rows, cr.cuePfx ∈ attrs ∧ cr.cueState ∈ stateKeys :=
    (spec_mem attrs stateKeys t.rows hrows 0).2
  have hgroups : headedB 0 ((specSkip attrs 0 t.rows).map (fun c => c.group)) = true :=
    (spec_groups attrs t.rows 0).1
  have hcompile : compileAllCues attrs stateKeys t
      = Except.ok (specSkip attrs 0 t.rows) := by
    rw [compileAllCues_eq attrs stateKeys t hcols hlrs,
      (main_fused attrs stateKeys t.rows hrows 0).1]
    have hany : (specSkip attrs 0 t.rows).any
        (fun r => !(stateKeys.contains r.cueState)) = false := by
      rw [List.any_eq_false]
      intro cr hcr
      have hst := (hmem cr hcr).2
      have hcont : stateKeys.contains cr.cueState = true := List.elem_eq_true_of_mem hst
      simp [hcont, hst]
    simp only [Except.bind]
    rw [hany]
    rfl
  refine ⟨hcompile, hmem, hgroups, ?_⟩
  intro m hm k hk
  have hmmem : m ∈ (specSkip attrs 0 t.rows).map (fun c => c.group) := by
    have := (List.max?_eq_some_iff (fun a => le_refl a) (fun a b => max_choice a b)
      (fun a b c => Nat.max_le)).mp hm
    exact this.1
  exact headed_mem _ hgroups k ⟨m, hmmem, hk⟩

/-- C1, witness: the law applied to the concrete valid two-group table
(leading blanks, a two-row run, a double blank boundary, a final run). -/
theorem C1_witness :
    compileAllCues ["A", "B"] ["Go"] exTableTwoGroups
      = Except.ok (specCompile ["A", "B"] exTableTwoGroups.rows) ∧
    headedB 0 ((specCompile ["A", "B"] exTableTwoGroups.rows).map (fun c => c.group))
      = true :=
  ⟨(C1_compile_valid ["A", "B"] ["Go"] exTableTwoGroups ⟨by decide, by decide⟩).1,
   (C1_compile_valid ["A", "B"] ["Go"] exTableTwoGroups ⟨by decide, by decide⟩).2.2.1⟩

/-- C2, counterexample.  The claimed scenario — one group of two valid
cue rows followed by one trailing blank row — does compile successfully,
but the trailing blank run creates no group: the resulting max cue group
is 0, not the claimed 1. -/
theorem C2_counterexample :
    format_all_cues exTableC2 exState0 = FormatOutcome.success exStateC2 ∧
    exStateC2.maxCueGroup = some 0 ∧
    exStateC2.maxCueGroup ≠ some 1 := by
  refine ⟨by decide, rfl, by decide⟩

/-- C2, amended.  The two-rows-plus-trailing-blank table compiles
successfully; the trailing blank run is tolerated but produces no group,
so the output holds exactly the two cues, both in group 0, and the max
cue group is 0.  A leading blank run is likewise tolerated: the same two
cue rows preceded by two blank rows compile to the same two group-0 cues,
so no empty leading or terminal group is ever emitted. -/
theorem C2_trailing_blank :
    format_all_cues exTableC2 exState0 = FormatOutcome.success exStateC2 ∧
    exStateC2.maxCueGroup = some 0 ∧
    exStateC2.allCues.map (fun c => c.group) = [0, 0] ∧
    exStateC2.allCues.length = 2 ∧
    compileAllCues ["A", "B"] ["Go"] exTableLead = Except.ok exCuesC2 := by
  refine ⟨by decide, rfl, rfl, rfl, rfl⟩
